import Mathlib

/-!
Verification development for the iambic reconciliation/apply engine.

The definitions below shallowly embed the aspect handlers of
`iambic/plugins/v0_1_0/aws/iam/role/utils.py` and `iambic/okta/app/utils.py`,
together with the data model they operate on.  Asynchronous provider calls are
embedded as explicit lists of call descriptions returned next to the list of
`ProposedChange` records; `asyncio.gather` batches are linearised in task-list
order (every task of a batch completes before the code after the `await` runs,
so phase boundaries are preserved exactly).
-/

/-- A generic structured document (the JSON-like dict/list/scalar values that
policy documents and provider resource states are made of). -/
inductive Doc where
  | str : String → Doc
  | num : Int → Doc
  | boolv : Bool → Doc
  | nullv : Doc
  | seq : List Doc → Doc
  | map : List (String × Doc) → Doc
deriving Repr

/-- Python truthiness of a document value (`if not x:` tests in the source). -/
def Doc.truthy : Doc → Bool
  | .str s => !s.isEmpty
  | .num n => n != 0
  | .boolv b => b
  | .nullv => false
  | .seq xs => !xs.isEmpty
  | .map kvs => !kvs.isEmpty

mutual

/-- Structural size of a document, used to bound the recursion depth of the
drift detector. -/
def Doc.size : Doc → Nat
  | .str _ => 1
  | .num _ => 1
  | .boolv _ => 1
  | .nullv => 1
  | .seq xs => 1 + Doc.sizeList xs
  | .map kvs => 1 + Doc.sizePairs kvs

/-- Combined size of a list of documents. -/
def Doc.sizeList : List Doc → Nat
  | [] => 0
  | x :: xs => Doc.size x + Doc.sizeList xs

/-- Combined size of the values of a key-value list. -/
def Doc.sizePairs : List (String × Doc) → Nat
  | [] => 0
  | kv :: kvs => Doc.size kv.snd + Doc.sizePairs kvs

end

/-- Modelled from the spec: the structural drift detector.  The source calls
the external `DeepDiff` library with `ignore_order=True, report_repetition=True`
(`update_assume_role_policy`, `apply_role_inline_policies`); the library itself
is not repository code, so its semantics are taken from spec section 4.2:
collections are compared ignoring order but counting repeated elements, maps
are compared key-wise, scalars by equality.  `true` means "no drift found".
The `fuel` argument bounds recursion depth by the size of the first document;
`docDiffEmpty` below supplies enough fuel for the result to be fuel-independent. -/
def docDiffEmptyF : Nat → Doc → Doc → Bool
  | 0, _, _ => false
  | f+1, a, b =>
    match a, b with
    | .str x, .str y => x == y
    | .num x, .num y => x == y
    | .boolv x, .boolv y => x == y
    | .nullv, .nullv => true
    | .seq xs, .seq ys =>
        (xs.length == ys.length) &&
        (xs.all fun x =>
          (xs.countP fun t => docDiffEmptyF f x t) ==
          (ys.countP fun t => docDiffEmptyF f x t)) &&
        (ys.all fun y => xs.any fun x => docDiffEmptyF f x y)
    | .map kvs, .map kvs' =>
        (kvs.all fun kv =>
          kvs'.any fun kv' => kv.fst == kv'.fst && docDiffEmptyF f kv.snd kv'.snd) &&
        (kvs'.all fun kv' => kvs.any fun kv => kv.fst == kv'.fst)
    | _, _ => false

/-- No-drift test between two documents (emptiness of the DeepDiff result). -/
def docDiffEmpty (a b : Doc) : Bool := docDiffEmptyF (a.size + 1) a b

theorem Doc.one_le_size : (a : Doc) → 1 ≤ a.size := by
  intro a; cases a <;> simp [Doc.size]

theorem list_countP_congr {α : Type} {l : List α} {p q : α → Bool}
    (h : ∀ x ∈ l, p x = q x) : l.countP p = l.countP q := by
  induction l with
  | nil => rfl
  | cons a l ih =>
      rw [List.countP_cons, List.countP_cons, h a (by simp),
        ih (fun x hx => h x (by simp [hx]))]

theorem list_all_congr {α : Type} {l : List α} {p q : α → Bool}
    (h : ∀ x ∈ l, p x = q x) : l.all p = l.all q := by
  induction l with
  | nil => rfl
  | cons a l ih =>
      simp only [List.all_cons, h a (by simp),
        ih (fun x hx => h x (by simp [hx]))]

theorem list_any_congr {α : Type} {l : List α} {p q : α → Bool}
    (h : ∀ x ∈ l, p x = q x) : l.any p = l.any q := by
  induction l with
  | nil => rfl
  | cons a l ih =>
      simp only [List.any_cons, h a (by simp),
        ih (fun x hx => h x (by simp [hx]))]

theorem size_le_sizeList {x : Doc} : ∀ {xs : List Doc}, x ∈ xs →
    x.size ≤ Doc.sizeList xs := by
  intro xs h
  induction xs with
  | nil => cases h
  | cons a l ih =>
      rw [Doc.sizeList]
      rcases List.mem_cons.mp h with h | h
      · subst h; omega
      · have := ih h; omega

theorem size_snd_le_sizePairs {kv : String × Doc} :
    ∀ {kvs : List (String × Doc)}, kv ∈ kvs →
      kv.snd.size ≤ Doc.sizePairs kvs := by
  intro kvs h
  induction kvs with
  | nil => cases h
  | cons a l ih =>
      rw [Doc.sizePairs]
      rcases List.mem_cons.mp h with h | h
      · subst h; omega
      · have := ih h; omega

theorem size_lt_of_mem_seq {x : Doc} {xs : List Doc} (h : x ∈ xs) :
    x.size < (Doc.seq xs).size := by
  have := size_le_sizeList h
  rw [Doc.size]
  omega

theorem size_snd_lt_of_mem_map {kv : String × Doc} {kvs : List (String × Doc)}
    (h : kv ∈ kvs) : kv.snd.size < (Doc.map kvs).size := by
  have := size_snd_le_sizePairs h
  rw [Doc.size]
  omega

/-- The result of the diff does not depend on the fuel, as long as the fuel
covers the size of the first document. -/
theorem docDiffEmptyF_fuel :
    ∀ (f g : Nat) (a b : Doc), a.size ≤ f → a.size ≤ g →
      docDiffEmptyF f a b = docDiffEmptyF g a b := by
  intro f
  induction f with
  | zero =>
      intro g a b hf _
      exact absurd hf (by have := Doc.one_le_size a; omega)
  | succ f ih =>
      intro g a b hf hg
      match g with
      | 0 => exact absurd hg (by have := Doc.one_le_size a; omega)
      | g+1 =>
        cases a <;> cases b <;> try rfl
        case seq.seq xs ys =>
          show (_ && _ && _) = (_ && _ && _)
          have hx : ∀ x ∈ xs, x.size ≤ f ∧ x.size ≤ g := by
            intro x hxm
            have := size_lt_of_mem_seq hxm
            omega
          have hcnt : ∀ (zs : List Doc), ∀ x ∈ xs,
              (zs.countP fun t => docDiffEmptyF f x t) =
              (zs.countP fun t => docDiffEmptyF g x t) := by
            intro zs x hxm
            exact list_countP_congr (fun t _ => ih g x t (hx x hxm).1 (hx x hxm).2)
          have h1 : (xs.all fun x =>
                (xs.countP fun t => docDiffEmptyF f x t) ==
                (ys.countP fun t => docDiffEmptyF f x t)) =
              (xs.all fun x =>
                (xs.countP fun t => docDiffEmptyF g x t) ==
                (ys.countP fun t => docDiffEmptyF g x t)) := by
            refine list_all_congr (fun x hxm => ?_)
            simp only [hcnt xs x hxm, hcnt ys x hxm]
          have h2 : (ys.all fun y => xs.any fun x => docDiffEmptyF f x y) =
              (ys.all fun y => xs.any fun x => docDiffEmptyF g x y) := by
            refine list_all_congr (fun y _ => ?_)
            exact list_any_congr (fun x hxm => ih g x y (hx x hxm).1 (hx x hxm).2)
          rw [h1, h2]
        case map.map kvs kvs' =>
          show (_ && _) = (_ && _)
          have h1 : (kvs.all fun kv => kvs'.any fun kv' =>
                kv.fst == kv'.fst && docDiffEmptyF f kv.snd kv'.snd) =
              (kvs.all fun kv => kvs'.any fun kv' =>
                kv.fst == kv'.fst && docDiffEmptyF g kv.snd kv'.snd) := by
            refine list_all_congr (fun kv hkv => ?_)
            refine list_any_congr (fun kv' _ => ?_)
            have := size_snd_lt_of_mem_map hkv
            simp only [ih g kv.snd kv'.snd (by omega) (by omega)]
          rw [h1]

theorem docDiffEmpty_eq_fuel (a b : Doc) (f : Nat) (hf : a.size ≤ f) :
    docDiffEmpty a b = docDiffEmptyF f a b :=
  docDiffEmptyF_fuel (a.size + 1) f a b (by omega) hf

/-- Unfolding of the diff on two sequences, with full fuel on the elements. -/
theorem docDiffEmpty_seq (xs ys : List Doc) :
    docDiffEmpty (Doc.seq xs) (Doc.seq ys) =
      ((xs.length == ys.length) &&
       (xs.all fun x =>
         (xs.countP fun t => docDiffEmpty x t) ==
         (ys.countP fun t => docDiffEmpty x t)) &&
       (ys.all fun y => xs.any fun x => docDiffEmpty x y)) := by
  show docDiffEmptyF ((Doc.seq xs).size + 1) (Doc.seq xs) (Doc.seq ys) = _
  show (_ && _ && _) = (_ && _ && _)
  have hx : ∀ x ∈ xs, x.size ≤ (Doc.seq xs).size := by
    intro x hxm; have := size_lt_of_mem_seq hxm; omega
  have hcnt : ∀ (zs : List Doc), ∀ x ∈ xs,
      (zs.countP fun t => docDiffEmptyF (Doc.seq xs).size x t) =
      (zs.countP fun t => docDiffEmpty x t) := by
    intro zs x hxm
    exact list_countP_congr
      (fun t _ => (docDiffEmpty_eq_fuel x t (Doc.seq xs).size (hx x hxm)).symm)
  have h1 : (xs.all fun x =>
        (xs.countP fun t => docDiffEmptyF (Doc.seq xs).size x t) ==
        (ys.countP fun t => docDiffEmptyF (Doc.seq xs).size x t)) =
      (xs.all fun x =>
        (xs.countP fun t => docDiffEmpty x t) ==
        (ys.countP fun t => docDiffEmpty x t)) := by
    refine list_all_congr (fun x hxm => ?_)
    simp only [hcnt xs x hxm, hcnt ys x hxm]
  have h2 : (ys.all fun y => xs.any fun x => docDiffEmptyF (Doc.seq xs).size x y) =
      (ys.all fun y => xs.any fun x => docDiffEmpty x y) := by
    refine list_all_congr (fun y _ => ?_)
    exact list_any_congr
      (fun x hxm => (docDiffEmpty_eq_fuel x y (Doc.seq xs).size (hx x hxm)).symm)
  rw [h1, h2]

/-- Unfolding of the diff on two maps, with full fuel on the values. -/
theorem docDiffEmpty_map (kvs kvs' : List (String × Doc)) :
    docDiffEmpty (Doc.map kvs) (Doc.map kvs') =
      ((kvs.all fun kv => kvs'.any fun kv' =>
          kv.fst == kv'.fst && docDiffEmpty kv.snd kv'.snd) &&
       (kvs'.all fun kv' => kvs.any fun kv => kv.fst == kv'.fst)) := by
  show docDiffEmptyF ((Doc.map kvs).size + 1) (Doc.map kvs) (Doc.map kvs') = _
  show (_ && _) = (_ && _)
  have h1 : (kvs.all fun kv => kvs'.any fun kv' =>
        kv.fst == kv'.fst && docDiffEmptyF (Doc.map kvs).size kv.snd kv'.snd) =
      (kvs.all fun kv => kvs'.any fun kv' =>
        kv.fst == kv'.fst && docDiffEmpty kv.snd kv'.snd) := by
    refine list_all_congr (fun kv hkv => ?_)
    refine list_any_congr (fun kv' _ => ?_)
    have := size_snd_lt_of_mem_map hkv
    simp only [← docDiffEmpty_eq_fuel kv.snd kv'.snd (Doc.map kvs).size (by omega)]
  rw [h1]

/-- Kind of a proposed mutation (iambic.core.models.ProposedChangeType). -/
inductive ChangeType where
  | create
  | update
  | attach
  | detach
  | delete
deriving DecidableEq, Repr

/-- One Change Record (iambic.core.models.ProposedChange).  `α` is the type of
the attribute values carried by the record, `σ` the type of the structured
change summary; `attr` embeds the source field `attribute`. -/
structure ProposedChange (α σ : Type) where
  change_type : ChangeType
  resource_id : Option String := none
  resource_type : Option String := none
  attr : String
  change_summary : Option σ := none
  current_value : Option α := none
  new_value : Option α := none
deriving DecidableEq, Repr

/-- An AWS tag dict as handled by `apply_role_tags`; `value = none` models a
dict without a "Value" key (so `tag.get("Value")` is Python `None`). -/
structure TagD where
  key : String
  value : Option String := none
deriving DecidableEq, Repr

/-- Python `tag.get("Value", "")` for a template tag, in the Python value
domain (`Option String`, with `none` standing for Python `None`). -/
def TagD.valueGetD (t : TagD) : Option String := some (t.value.getD "")

/-- Python `existing_tag_map.get(tag["Key"], "")` where `existing_tag_map` is
`{tag["Key"]: tag.get("Value") for tag in existing_tags}` (later duplicate keys
overwrite earlier ones, hence the reversed search). -/
def existingTagMapGet (existingTags : List TagD) (k : String) : Option String :=
  match existingTags.reverse.find? (fun t => t.key == k) with
  | some t => t.value
  | none => some ""

/-- The `tags_to_apply` list comprehension of `apply_role_tags`. -/
def tagsToApply (templateTags existingTags : List TagD) : List TagD :=
  templateTags.filter (fun t => t.valueGetD != existingTagMapGet existingTags t.key)

/-- The `tags_to_remove` list comprehension of `apply_role_tags`. -/
def tagsToRemove (templateTags existingTags : List TagD) : List String :=
  (existingTags.filter
    (fun t => !(templateTags.any (fun u => u.key == t.key)))).map (·.key)

/-- Mutating boto3 IAM calls issued by the role aspect handlers. -/
inductive RoleCall where
  | untagRole (roleName : String) (tagKeys : List String)
  | tagRole (roleName : String) (tags : List TagD)
  | updateAssumeRolePolicy (roleName : String) (policyDocument : Doc)
  | attachRolePolicy (roleName : String) (policyArn : String)
  | detachRolePolicy (roleName : String) (policyArn : String)
  | putRolePolicy (roleName : String) (policyName : String) (policyDocument : Doc)
  | deleteRolePolicy (roleName : String) (policyName : String)
  | removeRoleFromInstanceProfile (roleName : String) (instanceProfileName : String)
  | deleteInstanceProfile (instanceProfileName : String)
  | deleteRole (roleName : String)
deriving Repr

/-- Embedding of `apply_role_tags`: returns the `ProposedChange` list next to
the mutating boto calls gathered in `tasks`, in task-append order. -/
def applyRoleTags (roleName : String) (templateTags existingTags : List TagD)
    (execute : Bool) : List (ProposedChange TagD (List String)) × List RoleCall :=
  let toRemove := tagsToRemove templateTags existingTags
  let toApply := tagsToApply templateTags existingTags
  let detachRecords : List (ProposedChange TagD (List String)) :=
    if toRemove.isEmpty then []
    else [{ change_type := ChangeType.detach, attr := "tags",
            change_summary := some toRemove }]
  let removeCalls :=
    if !toRemove.isEmpty && execute then [RoleCall.untagRole roleName toRemove]
    else []
  let attachRecords : List (ProposedChange TagD (List String)) :=
    toApply.map (fun t =>
      { change_type := ChangeType.attach, attr := "tags", new_value := some t })
  let applyCalls :=
    if !toApply.isEmpty && execute then [RoleCall.tagRole roleName toApply]
    else []
  (detachRecords ++ attachRecords, removeCalls ++ applyCalls)

/-- Embedding of `update_assume_role_policy`.  `existingDoc = none` models a
falsy `existing_policy_document` (absent role or empty string); a JSON string
input is represented by the parsed document.  The UPDATE record's
`change_summary` is the DeepDiff result, modelled here only by its presence. -/
def updateAssumeRolePolicy (roleName : String) (templateDoc : Doc)
    (existingDoc : Option Doc) (execute : Bool) :
    List (ProposedChange Doc Unit) × List RoleCall :=
  match existingDoc with
  | some e =>
      if !(docDiffEmpty e templateDoc) then
        ([{ change_type := ChangeType.update, attr := "assume_role_policy_document",
            change_summary := some (), current_value := some e,
            new_value := some templateDoc }],
         if execute then [RoleCall.updateAssumeRolePolicy roleName templateDoc]
         else [])
      else ([], [])
  | none =>
      ([{ change_type := ChangeType.create, attr := "assume_role_policy_document",
          new_value := some templateDoc }],
       if execute then [RoleCall.updateAssumeRolePolicy roleName templateDoc]
       else [])

/-- One element of the `template_policies` / `existing_policies` inputs of
`apply_role_managed_policies` (a dict with a `PolicyArn` entry). -/
structure ManagedPolicyRef where
  policyArn : String
deriving DecidableEq, Repr

/-- Embedding of `apply_role_managed_policies`. -/
def applyRoleManagedPolicies (roleName : String)
    (templatePolicies existingPolicies : List ManagedPolicyRef) (execute : Bool) :
    List (ProposedChange String Unit) × List RoleCall :=
  let templateArns := templatePolicies.map (·.policyArn)
  let existingArns := existingPolicies.map (·.policyArn)
  let newArns := templateArns.filter (fun a => !(existingArns.contains a))
  let staleArns := existingArns.filter (fun a => !(templateArns.contains a))
  let attachRecords : List (ProposedChange String Unit) :=
    newArns.map (fun a =>
      { change_type := ChangeType.attach, resource_id := some a,
        attr := "managed_policies" })
  let attachCalls :=
    if execute then newArns.map (RoleCall.attachRolePolicy roleName) else []
  let detachRecords : List (ProposedChange String Unit) :=
    staleArns.map (fun a =>
      { change_type := ChangeType.detach, resource_id := some a,
        attr := "managed_policies" })
  let detachCalls :=
    if execute then staleArns.map (RoleCall.detachRolePolicy roleName) else []
  (attachRecords ++ detachRecords, attachCalls ++ detachCalls)

/-- Python dict insertion: a later binding for an existing key overwrites the
value in place, a new key is appended (insertion order is preserved). -/
def pyDictInsert (l : List (String × Doc)) (k : String) (v : Doc) :
    List (String × Doc) :=
  if l.any (fun p => p.fst == k) then
    l.map (fun p => if p.fst == k then (k, v) else p)
  else l ++ [(k, v)]

/-- The dict comprehension `{name: body for ...}` over an ordered pair list. -/
def pyDictOfPairs (ps : List (String × Doc)) : List (String × Doc) :=
  ps.foldl (fun acc p => pyDictInsert acc p.fst p.snd) []

/-- Python `d.get(k)` on an association list representing a dict. -/
def pyDictGet (l : List (String × Doc)) (k : String) : Option Doc :=
  (l.find? (fun p => p.fst == k)).map (·.snd)

/-- Python truthiness of `d.get(k)` results (`None` is falsy). -/
def pyTruthyOptDoc : Option Doc → Bool
  | some d => d.truthy
  | none => false

/-- One element of the `template_policies` / `existing_policies` inputs of
`apply_role_inline_policies`, already split into the `PolicyName` entry and
the remaining policy-document entries. -/
structure InlinePolicy where
  policyName : String
  body : Doc
deriving Repr

/-- The body of the template-policy loop of `apply_role_inline_policies` for
one `(policy_name, policy_document)` item. -/
def inlineUpsert (roleName : String) (emap : List (String × Doc))
    (execute : Bool) (nm : String) (doc : Doc) :
    List (ProposedChange Doc Unit) × List RoleCall :=
  let epd := pyDictGet emap nm
  let drift :=
    match epd with
    | some e => if e.truthy then !(docDiffEmpty e doc) else false
    | none => false
  if !(pyTruthyOptDoc epd) || drift then
    ((if drift then
        [{ change_type := ChangeType.update, resource_id := some nm,
           attr := "inline_policies", change_summary := some (),
           current_value := epd, new_value := some doc }]
      else
        [{ change_type := ChangeType.create, resource_id := some nm,
           attr := "inline_policies", new_value := some doc }]),
     if execute && doc.truthy then [RoleCall.putRolePolicy roleName nm doc]
     else [])
  else ([], [])

/-- Embedding of `apply_role_inline_policies`.  Note that in the stale-policy
loop of the source, both the DELETE `ProposedChange` append and the
`delete_role_policy` task append sit inside `if context.execute:`. -/
def applyRoleInlinePolicies (roleName : String)
    (templatePolicies existingPolicies : List InlinePolicy) (execute : Bool) :
    List (ProposedChange Doc Unit) × List RoleCall :=
  let tmap := pyDictOfPairs (templatePolicies.map (fun p => (p.policyName, p.body)))
  let emap := pyDictOfPairs (existingPolicies.map (fun p => (p.policyName, p.body)))
  let staleNames :=
    (emap.map (·.fst)).filter (fun nm => !(pyTruthyOptDoc (pyDictGet tmap nm)))
  let staleRecords : List (ProposedChange Doc Unit) :=
    if execute then
      staleNames.map (fun nm =>
        { change_type := ChangeType.delete, resource_id := some nm,
          attr := "inline_policies" })
    else []
  let staleCalls :=
    if execute then staleNames.map (fun nm => RoleCall.deleteRolePolicy roleName nm)
    else []
  let upserts := tmap.map (fun p => inlineUpsert roleName emap execute p.fst p.snd)
  (staleRecords ++ (upserts.map (·.fst)).flatten,
   staleCalls ++ (upserts.map (·.snd)).flatten)

/-- The dependent sub-resources of one role, as returned by the three read
calls of `delete_iam_role` (`list_instance_profiles_for_role`,
`list_attached_role_policies`, `list_role_policies`). -/
structure RoleDependents where
  instanceProfileNames : List String
  managedPolicyArns : List String
  inlinePolicyNames : List String
deriving DecidableEq, Repr

/-- Embedding of `delete_iam_role` as its trace of mutating boto calls.  The
source awaits one `asyncio.gather` per phase: remove-from-instance-profile,
delete-instance-profile, then one combined batch of managed-policy detaches
and inline-policy deletes, and only then calls `delete_role`; each batch is
linearised here in task-append order. -/
def deleteIamRole (roleName : String) (deps : RoleDependents) : List RoleCall :=
  (deps.instanceProfileNames.map (RoleCall.removeRoleFromInstanceProfile roleName))
  ++ (deps.instanceProfileNames.map RoleCall.deleteInstanceProfile)
  ++ (deps.managedPolicyArns.map (RoleCall.detachRolePolicy roleName))
  ++ (deps.inlinePolicyNames.map (RoleCall.deleteRolePolicy roleName))
  ++ [RoleCall.deleteRole roleName]

/-- Lookup in an association list (Python dict access by key). -/
def lookupAssoc {β : Type} (l : List (String × β)) (k : String) : Option β :=
  (l.find? (fun p => p.fst == k)).map (·.snd)

/-- The IAM state visible to `get_role`: role dicts by name, attached managed
policy ARNs by role name, and inline policies by role name. -/
structure IamState where
  roles : List (String × Doc)
  attachedManagedPolicies : List (String × List String)
  inlinePolicies : List (String × List InlinePolicy)
deriving Repr

/-- boto3 `iam.get_role`: the role dict, or `NoSuchEntityException` when the
role does not exist. -/
def botoGetRole (st : IamState) (roleName : String) : Except Unit Doc :=
  match lookupAssoc st.roles roleName with
  | some r => Except.ok r
  | none => Except.error ()

/-- The `ManagedPolicies` value attached by `get_role`
(`get_role_managed_policies`). -/
def getRoleManagedPoliciesDoc (st : IamState) (roleName : String) : Doc :=
  Doc.seq (((lookupAssoc st.attachedManagedPolicies roleName).getD []).map
    (fun a => Doc.map [("PolicyArn", Doc.str a)]))

/-- The `InlinePolicies` value attached by `get_role`
(`get_role_inline_policies` with `as_dict=False`:
`{"PolicyName": name, **policy_document}`). -/
def getRoleInlinePoliciesDoc (st : IamState) (roleName : String) : Doc :=
  Doc.seq (((lookupAssoc st.inlinePolicies roleName).getD []).map
    (fun p => Doc.map (("PolicyName", Doc.str p.policyName) ::
      (match p.body with
       | Doc.map kvs => kvs
       | _ => []))))

/-- Python `d[k] = v` on a document that is a dict. -/
def docSetKey (d : Doc) (k : String) (v : Doc) : Doc :=
  match d with
  | Doc.map kvs => Doc.map (pyDictInsert kvs k v)
  | other => other

/-- Embedding of `get_role`: returns the role dict (with policies attached
when requested) and the empty dict when the boto call raises
`NoSuchEntityException`. -/
def getRole (st : IamState) (roleName : String) (includePolicies : Bool) : Doc :=
  match botoGetRole st roleName with
  | Except.ok r =>
      if includePolicies then
        docSetKey
          (docSetKey r "ManagedPolicies" (getRoleManagedPoliciesDoc st roleName))
          "InlinePolicies" (getRoleInlinePoliciesDoc st roleName)
      else r
  | Except.error _ => Doc.map []

/-- An Okta assignment (iambic.okta.models.Assignment, as used by
`update_app_assignments`): at most one of `user` / `group` is set. -/
structure Assignment where
  user : Option String := none
  group : Option String := none
deriving DecidableEq, Repr

/-- An Okta app, restricted to the fields the handlers read. -/
structure App where
  id : String
  name : String
  resourceType : String
  resourceId : String
  assignments : List Assignment
deriving DecidableEq, Repr

/-- Mutating Okta client calls issued by the app handlers. -/
inductive OktaCall where
  | assignUserToApp (appId : String) (userId : String)
  | createAppGroupAssignment (appId : String) (groupId : String)
  | deleteAppUser (appId : String) (userId : String)
  | deleteAppGroupAssignment (appId : String) (groupId : String)
  | updateApplication (appId : String) (newName : String)
  | deleteApp (appId : String)
deriving DecidableEq, Repr

/-- The Okta directory used to resolve logins and group names to ids in the
execute branch of `update_app_assignments`; a missing entry models the
error-and-continue path. -/
structure OktaDirectory where
  userIds : List (String × String)
  groupIds : List (String × String)
deriving DecidableEq, Repr

/-- The list comprehension `[a.f for a in l if a.f]` (Python truthiness:
`None` and the empty string are skipped). -/
def truthyStrField (f : Assignment → Option String) (l : List Assignment) :
    List String :=
  l.filterMap (fun a =>
    match f a with
    | some s => if s.isEmpty then none else some s
    | none => none)

/-- The structured summary carried by the DETACH / ATTACH records of
`update_app_assignments`. -/
structure AssignmentSummary where
  userAssignments : List String
  groupAssignments : List String
deriving DecidableEq, Repr

/-- Embedding of `update_app_assignments`: one aggregated DETACH record when
anything is to unassign, one aggregated ATTACH record when anything is to
assign, and the mutating calls only in execute mode (assign users, assign
groups, unassign users, unassign groups; unresolvable logins/names are
logged and skipped). -/
def updateAppAssignments (app : App) (newAssignments : List Assignment)
    (dir : OktaDirectory) (execute : Bool) :
    List (ProposedChange Unit AssignmentSummary) × List OktaCall :=
  let currentUsers := truthyStrField (·.user) app.assignments
  let desiredUsers := truthyStrField (·.user) newAssignments
  let usersToUnassign := currentUsers.filter (fun u => !(desiredUsers.contains u))
  let usersToAssign := desiredUsers.filter (fun u => !(currentUsers.contains u))
  let currentGroups := truthyStrField (·.group) app.assignments
  let desiredGroups := truthyStrField (·.group) newAssignments
  let groupsToUnassign := currentGroups.filter (fun g => !(desiredGroups.contains g))
  let groupsToAssign := desiredGroups.filter (fun g => !(currentGroups.contains g))
  let detachRecords : List (ProposedChange Unit AssignmentSummary) :=
    if !usersToUnassign.isEmpty || !groupsToUnassign.isEmpty then
      [{ change_type := ChangeType.detach, resource_id := some app.id,
         resource_type := some app.resourceType, attr := "assignments",
         change_summary := some ⟨usersToUnassign, groupsToUnassign⟩ }]
    else []
  let attachRecords : List (ProposedChange Unit AssignmentSummary) :=
    if !usersToAssign.isEmpty || !groupsToAssign.isEmpty then
      [{ change_type := ChangeType.attach, resource_id := some app.id,
         resource_type := some app.resourceType, attr := "assignments",
         change_summary := some ⟨usersToAssign, groupsToAssign⟩ }]
    else []
  let calls :=
    if execute then
      (usersToAssign.filterMap (fun u =>
        (lookupAssoc dir.userIds u).map (OktaCall.assignUserToApp app.id)))
      ++ (groupsToAssign.filterMap (fun g =>
        (lookupAssoc dir.groupIds g).map (OktaCall.createAppGroupAssignment app.id)))
      ++ (usersToUnassign.filterMap (fun u =>
        (lookupAssoc dir.userIds u).map (OktaCall.deleteAppUser app.id)))
      ++ (groupsToUnassign.filterMap (fun g =>
        (lookupAssoc dir.groupIds g).map (OktaCall.deleteAppGroupAssignment app.id)))
    else []
  (detachRecords ++ attachRecords, calls)

/-- Embedding of `update_app_name`. -/
def updateAppName (app : App) (newName : String) (execute : Bool) :
    List (ProposedChange String Unit) × List OktaCall :=
  if app.name == newName then ([], [])
  else
    ([{ change_type := ChangeType.update, resource_id := some app.resourceId,
        resource_type := some app.resourceType, attr := "app_name",
        new_value := some newName }],
     if execute then [OktaCall.updateApplication app.id newName] else [])

/-- Embedding of `maybe_delete_app`; the DELETE record's summary is the
app name (`{"app": app.name}`). -/
def maybeDeleteApp (delete : Bool) (app : App) (execute : Bool) :
    List (ProposedChange Unit String) × List OktaCall :=
  if !delete then ([], [])
  else
    ([{ change_type := ChangeType.delete, resource_id := some app.id,
        resource_type := some app.resourceType, attr := "app",
        change_summary := some app.name }],
     if execute then [OktaCall.deleteApp app.id] else [])

/-- Modelled from the spec: the `Group` property model of the AWS IAM user
template (`iambic.plugins.v0_1_0.aws.iam.user.models`), which is not under
src/ (only its tests are).  `expires_at` is the operator-owned expiry
annotation of spec section 4.3. -/
structure UserGroup where
  group_name : String
  expires_at : Option String := none
deriving DecidableEq, Repr

/-- Modelled from the spec: `merge_model` (`iambic.core.template_generation`,
not under src/) on one group element, spec section 4.3 rule 1: the new
(discovered) value wins for discovery-observable fields, while the
operator-owned `expires_at` keeps the existing value whenever the new value
does not set it. -/
def mergeUserGroup (newG existingG : UserGroup) : UserGroup :=
  { group_name := newG.group_name
    expires_at :=
      match newG.expires_at with
      | some v => some v
      | none => existingG.expires_at }

/-- Find a group element by its natural key (the group name). -/
def findGroupByName (l : List UserGroup) (nm : String) : Option UserGroup :=
  l.find? (fun g => g.group_name == nm)

/-- Key order used to sort group collections deterministically. -/
def groupLe (a b : UserGroup) : Prop := a.group_name ≤ b.group_name

instance : DecidableRel groupLe := fun a b =>
  inferInstanceAs (Decidable (a.group_name ≤ b.group_name))

instance : IsTotal UserGroup groupLe :=
  ⟨fun a b => le_total a.group_name b.group_name⟩

instance : IsTrans UserGroup groupLe :=
  ⟨fun _ _ _ hab hbc => le_trans hab hbc⟩

/-- Modelled from the spec: `merge_model` on a keyed group collection, spec
section 4.3 rules 2 and 3: merge element-wise by the natural key, append
elements only present in the new list, drop elements only present in the
existing list, then sort deterministically by the key. -/
def mergeGroupLists (newList existingList : List UserGroup) : List UserGroup :=
  List.insertionSort groupLe
    (newList.map (fun g =>
      match findGroupByName existingList g.group_name with
      | some e => mergeUserGroup g e
      | none => g))

/-- Modelled from the spec: one element of `Credentials.access_keys`
(`iambic.plugins.v0_1_0.aws.iam.user.models.AccessKey`, not under src/). -/
structure AccessKeyD where
  id : String
  enabled : Bool := true
  last_used : Option String := none
deriving DecidableEq, Repr

/-- Key order used to sort access keys (lexicographic on the key id). -/
def accessKeyLe (a b : AccessKeyD) : Prop := a.id ≤ b.id

instance : DecidableRel accessKeyLe := fun a b =>
  inferInstanceAs (Decidable (a.id ≤ b.id))

instance : IsTotal AccessKeyD accessKeyLe := ⟨fun a b => le_total a.id b.id⟩

instance : IsTrans AccessKeyD accessKeyLe :=
  ⟨fun _ _ _ hab hbc => le_trans hab hbc⟩

/-- Modelled from the spec: the validator of `Credentials.access_keys`
sorts the collection by key id so that validated output is deterministic
(spec section 4.3 rule 3 and section 8, deterministic sort). -/
def sortAccessKeys (l : List AccessKeyD) : List AccessKeyD :=
  List.insertionSort accessKeyLe l

/-- Modelled from the spec: an account-scoped credential entry
(`iambic.plugins.v0_1_0.aws.iam.user.models.Credentials`, not under src/),
keyed by its `included_accounts` scoping. -/
structure CredentialD where
  included_accounts : List String
deriving DecidableEq, Repr

/-- The natural key of an account-scoped credential entry. -/
def credentialKey (c : CredentialD) : String :=
  String.intercalate "_" c.included_accounts

/-- Key order used to sort account-scoped credential entries. -/
def credentialLe (a b : CredentialD) : Prop := credentialKey a ≤ credentialKey b

instance : DecidableRel credentialLe := fun a b =>
  inferInstanceAs (Decidable (credentialKey a ≤ credentialKey b))

instance : IsTotal CredentialD credentialLe :=
  ⟨fun a b => le_total (credentialKey a) (credentialKey b)⟩

instance : IsTrans CredentialD credentialLe :=
  ⟨fun _ _ _ hab hbc => le_trans hab hbc⟩

/-- Modelled from the spec: the `UserProperties` validator sorts
account-scoped credential entries by their `included_accounts` key. -/
def sortCredentials (l : List CredentialD) : List CredentialD :=
  List.insertionSort credentialLe l

/-- A template tag of the user properties model (lower-case `key`/`value`
fields, as in the tests). -/
structure TagKV where
  key : String
  value : String
deriving DecidableEq, Repr

/-- Modelled from the spec: the AWS IAM user `UserProperties` model
(`iambic.plugins.v0_1_0.aws.iam.user.models`, not under src/), restricted to
the fields exercised by the tag-count constraint. -/
structure UserPropertiesM where
  user_name : String
  tags : List TagKV
deriving DecidableEq, Repr

/-- The maximum number of tags accepted by the `UserProperties` validator. -/
def maxTagCount : Nat := 50

/-- Modelled from the spec: constructing `UserProperties` runs the pydantic
field validators; a template with more than `maxTagCount` tags raises a
`ValidationError` (spec section 7 taxonomy (c): validation errors fail fast
at template-load time, before any provider call is attempted — accordingly
this function performs no provider call and returns the error). -/
def mkUserProperties (userName : String) (tags : List TagKV) :
    Except String UserPropertiesM :=
  if tags.length > maxTagCount then Except.error "too many tags"
  else Except.ok { user_name := userName, tags := tags }

/-- A concrete inline policy document used as failing input. -/
def fooPolicyDoc : Doc := Doc.map [("Version", Doc.str "2012-10-17")]

/-- C1: the claim states that `apply_role_inline_policies` returns the same
`ProposedChange` list whether `context.execute` is false or true.  The code
contradicts this: for a role with one existing inline policy "foo" and an
empty template, the plan run returns no record at all while the execute run
returns a DELETE record and issues `delete_role_policy` — the DELETE append
sits inside `if context.execute:` in the stale-policy loop. -/
theorem applyRoleInlinePolicies_plan_execute_divergence :
    applyRoleInlinePolicies "role" [] [{ policyName := "foo", body := fooPolicyDoc }]
        false = ([], [])
  ∧ applyRoleInlinePolicies "role" [] [{ policyName := "foo", body := fooPolicyDoc }]
        true =
      ([{ change_type := ChangeType.delete, resource_id := some "foo",
          attr := "inline_policies" }],
       [RoleCall.deleteRolePolicy "role" "foo"]) :=
  ⟨rfl, rfl⟩

/-- C2: with `execute = false` none of the seven aspect handlers issues any
mutating provider call: each returns an empty call list and only computes its
`ProposedChange` records. -/
theorem plan_mode_issues_no_mutating_calls :
    (∀ (rn : String) (tt et : List TagD),
      (applyRoleTags rn tt et false).snd = [])
  ∧ (∀ (rn : String) (td : Doc) (ed : Option Doc),
      (updateAssumeRolePolicy rn td ed false).snd = [])
  ∧ (∀ (rn : String) (tp ep : List ManagedPolicyRef),
      (applyRoleManagedPolicies rn tp ep false).snd = [])
  ∧ (∀ (rn : String) (tp ep : List InlinePolicy),
      (applyRoleInlinePolicies rn tp ep false).snd = [])
  ∧ (∀ (d : Bool) (app : App), (maybeDeleteApp d app false).snd = [])
  ∧ (∀ (app : App) (na : List Assignment) (dir : OktaDirectory),
      (updateAppAssignments app na dir false).snd = [])
  ∧ (∀ (app : App) (nn : String), (updateAppName app nn false).snd = []) := by
  refine ⟨?_, ?_, ?_, ?_, ?_, ?_, ?_⟩
  · intro rn tt et
    simp [applyRoleTags]
  · intro rn td ed
    cases ed <;> simp [updateAssumeRolePolicy, apply_ite]
  · intro rn tp ep
    simp [applyRoleManagedPolicies]
  · intro rn tp ep
    simp only [applyRoleInlinePolicies]
    simp [inlineUpsert, apply_ite, List.flatten_eq_nil_iff, List.mem_map]
  · intro d app
    simp [maybeDeleteApp, apply_ite]
  · intro app na dir
    simp [updateAppAssignments]
  · intro app nn
    simp [updateAppName, apply_ite]

/-- C3: `delete_iam_role` issues every dependent detach/delete operation
(remove the role from each of its instance profiles, delete each instance
profile, detach each attached managed policy, delete each inline policy)
strictly before the `delete_role` call, which is the single last call of the
trace. -/
theorem deleteIamRole_dependents_before_role_delete (roleName : String)
    (deps : RoleDependents) :
    deleteIamRole roleName deps =
      ((deps.instanceProfileNames.map
          (RoleCall.removeRoleFromInstanceProfile roleName))
        ++ (deps.instanceProfileNames.map RoleCall.deleteInstanceProfile)
        ++ (deps.managedPolicyArns.map (RoleCall.detachRolePolicy roleName))
        ++ (deps.inlinePolicyNames.map (RoleCall.deleteRolePolicy roleName)))
      ++ [RoleCall.deleteRole roleName]
  ∧ RoleCall.deleteRole roleName ∉
      ((deps.instanceProfileNames.map
          (RoleCall.removeRoleFromInstanceProfile roleName))
        ++ (deps.instanceProfileNames.map RoleCall.deleteInstanceProfile)
        ++ (deps.managedPolicyArns.map (RoleCall.detachRolePolicy roleName))
        ++ (deps.inlinePolicyNames.map (RoleCall.deleteRolePolicy roleName))) := by
  constructor
  · simp [deleteIamRole]
  · simp [List.mem_append, List.mem_map]

/-- C8: absence is the create case: when the role name resolves to no role,
the boto `get_role` call raises `NoSuchEntityException`, `get_role` catches it
and returns the empty dict instead of failing; and `update_assume_role_policy`
on a falsy existing policy document emits exactly one CREATE record for the
assume-role policy document and no UPDATE record. -/
theorem absence_is_create_case (st : IamState) (roleName : String) (b : Bool)
    (rn : String) (td : Doc) (ex : Bool)
    (h : lookupAssoc st.roles roleName = none) :
    botoGetRole st roleName = Except.error ()
  ∧ getRole st roleName b = Doc.map []
  ∧ (updateAssumeRolePolicy rn td none ex).fst =
      [{ change_type := ChangeType.create, attr := "assume_role_policy_document",
         new_value := some td }]
  ∧ (updateAssumeRolePolicy rn td none ex).fst.countP
      (fun r => r.change_type == ChangeType.update) = 0 := by
  refine ⟨?_, ?_, rfl, rfl⟩
  · simp [botoGetRole, h]
  · simp [getRole, botoGetRole, h]

/-- Witness for C8 at a concrete empty IAM state. -/
theorem absence_is_create_case_witness :
    botoGetRole { roles := [], attachedManagedPolicies := [], inlinePolicies := [] }
        "engineering" = Except.error ()
  ∧ getRole { roles := [], attachedManagedPolicies := [], inlinePolicies := [] }
        "engineering" true = Doc.map []
  ∧ (updateAssumeRolePolicy "engineering" fooPolicyDoc none false).fst =
      [{ change_type := ChangeType.create, attr := "assume_role_policy_document",
         new_value := some fooPolicyDoc }]
  ∧ (updateAssumeRolePolicy "engineering" fooPolicyDoc none false).fst.countP
      (fun r => r.change_type == ChangeType.update) = 0 :=
  absence_is_create_case
    { roles := [], attachedManagedPolicies := [], inlinePolicies := [] }
    "engineering" true "engineering" fooPolicyDoc false rfl

theorem pair_if_length_le_two {β : Type} (c1 c2 : Bool) (r1 r2 : β) :
    ((if c1 then [r1] else []) ++ (if c2 then [r2] else [])).length ≤ 2 := by
  cases c1 <;> cases c2 <;> simp

theorem pair_if_countP_le_one {β : Type} (c1 c2 : Bool) (r1 r2 : β)
    (p : β → Bool) (h : p r1 = false ∨ p r2 = false) :
    ((if c1 then [r1] else []) ++ (if c2 then [r2] else [])).countP p ≤ 1 := by
  rcases h with h | h <;> cases c1 <;> cases c2 <;>
    cases hp1 : p r1 <;> cases hp2 : p r2 <;>
    simp_all [List.countP_cons, List.countP_nil]

theorem pair_if_eq_nil_iff {β : Type} (c1 c2 : Bool) (r1 r2 : β) :
    ((if c1 then [r1] else []) ++ (if c2 then [r2] else []) = []) ↔
      (c1 = false ∧ c2 = false) := by
  cases c1 <;> cases c2 <;> simp

theorem filter_not_contains_eq_nil_iff (l m : List String) :
    (l.filter (fun u => !(m.contains u)) = []) ↔ ∀ u ∈ l, u ∈ m := by
  rw [List.filter_eq_nil_iff]
  constructor
  · intro h u hu
    have := h u hu
    simpa [List.elem_iff] using this
  · intro h u hu
    simp [List.elem_iff]
    exact h u hu

/-- C10: `update_app_assignments` returns at most two `ProposedChange`
records — at most one DETACH aggregating everything to unassign and at most
one ATTACH aggregating everything to assign — and returns the empty list
exactly when the desired (truthy) user-assignment and group-assignment sets
equal the current ones. -/
theorem updateAppAssignments_at_most_two_aggregated_records (app : App)
    (na : List Assignment) (dir : OktaDirectory) (ex : Bool) :
    (updateAppAssignments app na dir ex).fst.length ≤ 2
  ∧ (updateAppAssignments app na dir ex).fst.countP
      (fun r => r.change_type == ChangeType.detach) ≤ 1
  ∧ (updateAppAssignments app na dir ex).fst.countP
      (fun r => r.change_type == ChangeType.attach) ≤ 1
  ∧ ((updateAppAssignments app na dir ex).fst = [] ↔
      ((∀ u, u ∈ truthyStrField (fun a => a.user) na ↔
          u ∈ truthyStrField (fun a => a.user) app.assignments)
       ∧ (∀ g, g ∈ truthyStrField (fun a => a.group) na ↔
          g ∈ truthyStrField (fun a => a.group) app.assignments))) := by
  refine ⟨pair_if_length_le_two _ _ _ _,
    pair_if_countP_le_one _ _ _ _ _ (Or.inr (by rfl)),
    pair_if_countP_le_one _ _ _ _ _ (Or.inl (by rfl)), ?_⟩
  refine Iff.trans (pair_if_eq_nil_iff _ _ _ _) ?_
  simp only [Bool.or_eq_false_iff, Bool.not_eq_false', List.isEmpty_iff,
    filter_not_contains_eq_nil_iff]
  constructor
  · rintro ⟨⟨hcu, hcg⟩, ⟨hdu, hdg⟩⟩
    exact ⟨fun u => ⟨fun h => hdu u h, fun h => hcu u h⟩,
           fun g => ⟨fun h => hdg g h, fun h => hcg g h⟩⟩
  · rintro ⟨hu, hg⟩
    exact ⟨⟨fun u h => (hu u).mpr h, fun g h => (hg g).mpr h⟩,
           ⟨fun u h => (hu u).mp h, fun g h => (hg g).mp h⟩⟩

theorem filter_filter_ne_of_pred_false {α : Type} [DecidableEq α] (p : α → Bool)
    (t : α) (ht : p t = false) :
    ∀ l : List α, (l.filter (fun x => x != t)).filter p = l.filter p := by
  intro l
  induction l with
  | nil => rfl
  | cons a l ih =>
      by_cases hat : a = t
      · subst hat
        simp [List.filter_cons, ht, ih]
      · simp [List.filter_cons, hat, ih]

theorem any_filter_ne_of_pred_false {α : Type} [DecidableEq α] (q : α → Bool)
    (t : α) (ht : q t = false) :
    ∀ l : List α, (l.filter (fun x => x != t)).any q = l.any q := by
  intro l
  induction l with
  | nil => rfl
  | cons a l ih =>
      by_cases hat : a = t
      · subst hat
        simp [List.filter_cons, ht, ih]
      · simp [List.filter_cons, hat, ih]

theorem tagApplyPred_false {t : TagD} {existingTags : List TagD}
    (hv : t.value = none ∨ t.value = some "")
    (hk : ∀ e ∈ existingTags, e.key ≠ t.key) :
    (fun u : TagD => u.valueGetD != existingTagMapGet existingTags u.key) t
      = false := by
  show (t.valueGetD != existingTagMapGet existingTags t.key) = false
  have hval : t.valueGetD = some "" := by
    rcases hv with hv | hv <;> simp [TagD.valueGetD, hv]
  have hfind : existingTags.reverse.find? (fun e => e.key == t.key) = none := by
    rw [List.find?_eq_none]
    intro e he
    simp only [List.mem_reverse] at he
    simp [hk e he]
  rw [hval, existingTagMapGet, hfind]
  simp

/-- C9: a template tag whose "Value" is absent or empty and whose "Key" does
not occur among the existing tags is silently skipped by `apply_role_tags`:
the output equals the output computed without that tag, the tag appears as
`new_value` of no ATTACH record, and it is contained in no `tag_role`
payload — because `tag.get("Value", "")` and the missing existing value both
default to the empty string, so the comparison sees no difference. -/
theorem applyRoleTags_skips_empty_value_new_tags (roleName : String)
    (templateTags existingTags : List TagD) (ex : Bool) (t : TagD)
    (hv : t.value = none ∨ t.value = some "")
    (hk : ∀ e ∈ existingTags, e.key ≠ t.key) :
    applyRoleTags roleName templateTags existingTags ex =
      applyRoleTags roleName (templateTags.filter (fun u => u != t))
        existingTags ex
  ∧ (∀ pc ∈ (applyRoleTags roleName templateTags existingTags ex).fst,
      pc.new_value ≠ some t)
  ∧ (∀ c ∈ (applyRoleTags roleName templateTags existingTags ex).snd,
      ∀ ts, c = RoleCall.tagRole roleName ts → t ∉ ts) := by
  have hpred := tagApplyPred_false hv hk
  have happly : tagsToApply (templateTags.filter (fun u => u != t)) existingTags =
      tagsToApply templateTags existingTags := by
    rw [tagsToApply, tagsToApply]
    exact filter_filter_ne_of_pred_false
      (fun u : TagD => u.valueGetD != existingTagMapGet existingTags u.key)
      t hpred templateTags
  have hremove : tagsToRemove (templateTags.filter (fun u => u != t)) existingTags =
      tagsToRemove templateTags existingTags := by
    rw [tagsToRemove, tagsToRemove]
    congr 1
    refine List.filter_congr (fun e he => ?_)
    have hq : (fun u : TagD => u.key == e.key) t = false := by
      show (t.key == e.key) = false
      simp
      intro hkey
      exact absurd hkey.symm (hk e he)
    rw [any_filter_ne_of_pred_false (fun u : TagD => u.key == e.key) t hq
      templateTags]
  have hnotin : t ∉ tagsToApply templateTags existingTags := by
    intro hmem
    rw [tagsToApply, List.mem_filter] at hmem
    have hred : (t.valueGetD != existingTagMapGet existingTags t.key) = false :=
      hpred
    rw [hred] at hmem
    exact absurd hmem.2 (by simp)
  refine ⟨?_, ?_, ?_⟩
  · simp only [applyRoleTags, happly, hremove]
  · intro pc hpc
    simp only [applyRoleTags, List.mem_append] at hpc
    rcases hpc with hpc | hpc
    · split at hpc
      · cases hpc
      · simp only [List.mem_singleton] at hpc
        subst hpc
        simp
    · simp only [List.mem_map] at hpc
      obtain ⟨u, hu, hpc⟩ := hpc
      subst hpc
      simp only [Option.some.injEq, ne_eq]
      intro hut
      subst hut
      exact hnotin hu
  · intro c hc ts hts
    simp only [applyRoleTags, List.mem_append] at hc
    rcases hc with hc | hc
    · split at hc
      · simp only [List.mem_singleton] at hc
        subst hc
        cases hts
      · cases hc
    · split at hc
      · simp only [List.mem_singleton] at hc
        subst hc
        cases hts
        exact hnotin
      · cases hc

/-- Witness for C9 at a concrete template tag with no "Value" entry. -/
theorem applyRoleTags_skips_empty_value_new_tags_witness :
    (applyRoleTags "role" [{ key := "team" }] [] false =
      applyRoleTags "role"
        ([{ key := "team" }].filter (fun u => u != ({ key := "team" } : TagD)))
        [] false)
  ∧ (∀ pc ∈ (applyRoleTags "role" [{ key := "team" }] [] false).fst,
      pc.new_value ≠ some ({ key := "team" } : TagD))
  ∧ (∀ c ∈ (applyRoleTags "role" [{ key := "team" }] [] false).snd,
      ∀ ts, c = RoleCall.tagRole "role" ts → ({ key := "team" } : TagD) ∉ ts) :=
  applyRoleTags_skips_empty_value_new_tags "role" [{ key := "team" }] [] false
    { key := "team" } (Or.inl rfl) (by intro e he; cases he)

theorem docDiffEmpty_refl : ∀ a : Doc, docDiffEmpty a a = true := by
  have main : ∀ (n : Nat) (a : Doc), a.size ≤ n → docDiffEmpty a a = true := by
    intro n
    induction n with
    | zero =>
        intro a ha
        exact absurd ha (by have := Doc.one_le_size a; omega)
    | succ n ih =>
        intro a ha
        cases a with
        | str s => simp [docDiffEmpty, docDiffEmptyF]
        | num i => simp [docDiffEmpty, docDiffEmptyF]
        | boolv v => simp [docDiffEmpty, docDiffEmptyF]
        | nullv => simp [docDiffEmpty, docDiffEmptyF]
        | seq xs =>
            rw [docDiffEmpty_seq]
            simp only [List.all_eq_true, List.any_eq_true, Bool.and_eq_true,
              beq_iff_eq]
            refine ⟨⟨trivial, fun x _ => trivial⟩, fun y hy => ⟨y, hy, ?_⟩⟩
            have := size_lt_of_mem_seq hy
            exact ih y (by omega)
        | map kvs =>
            rw [docDiffEmpty_map]
            simp only [List.all_eq_true, List.any_eq_true, Bool.and_eq_true,
              beq_iff_eq]
            constructor
            · intro kv hkv
              refine ⟨kv, hkv, rfl, ?_⟩
              have := size_snd_lt_of_mem_map hkv
              exact ih kv.snd (by omega)
            · intro kv hkv
              exact ⟨kv, hkv, rfl⟩
  exact fun a => main a.size a (le_refl _)

theorem docDiffEmpty_of_perm {xs ys : List Doc} (h : xs.Perm ys) :
    docDiffEmpty (Doc.seq xs) (Doc.seq ys) = true := by
  rw [docDiffEmpty_seq]
  simp only [List.all_eq_true, List.any_eq_true, Bool.and_eq_true, beq_iff_eq]
  refine ⟨⟨h.length_eq, fun x _ => h.countP_eq _⟩, fun y hy => ?_⟩
  exact ⟨y, h.mem_iff.mpr hy, docDiffEmpty_refl y⟩

/-- A JSON policy document: a Version entry and a Statement list. -/
def policyDoc (version : String) (statements : List Doc) : Doc :=
  Doc.map [("Version", Doc.str version), ("Statement", Doc.seq statements)]

theorem docDiffEmpty_policyDoc_perm (version : String) {s₁ s₂ : List Doc}
    (h : s₁.Perm s₂) :
    docDiffEmpty (policyDoc version s₁) (policyDoc version s₂) = true := by
  rw [policyDoc, policyDoc, docDiffEmpty_map]
  simp [docDiffEmpty_refl, docDiffEmpty_of_perm h]

theorem docDiffEmpty_reports_repetition {x : Doc} {xs ys : List Doc}
    (hx : x ∈ xs)
    (hc : (xs.countP fun t => docDiffEmpty x t) ≠
          (ys.countP fun t => docDiffEmpty x t)) :
    docDiffEmpty (Doc.seq xs) (Doc.seq ys) = false := by
  rw [show (false : Bool) = decide False by rfl]
  rw [docDiffEmpty_seq]
  simp only [decide_False, Bool.and_eq_false_iff]
  left
  right
  rw [List.all_eq_false]
  exact ⟨x, hx, by simp [hc]⟩

/-- C4: drift detection is order-insensitive and idempotent, and counts
repetitions: the diff of any document with itself is empty; the diff of two
sequences that are permutations of one another is empty; so is the diff of
two policy documents whose statement lists are permutations of one another,
and `update_assume_role_policy` then emits no record (in particular no
UPDATE) and no call; while an element whose multiplicity differs between the
two sides (for instance occurring twice on one side and absent on the other)
makes the diff non-empty. -/
theorem drift_detection_order_insensitive_idempotent :
    (∀ a : Doc, docDiffEmpty a a = true)
  ∧ (∀ xs ys : List Doc, xs.Perm ys →
      docDiffEmpty (Doc.seq xs) (Doc.seq ys) = true)
  ∧ (∀ (version : String) (s₁ s₂ : List Doc), s₁.Perm s₂ →
      docDiffEmpty (policyDoc version s₁) (policyDoc version s₂) = true)
  ∧ (∀ (rn : String) (td ed : Doc) (ex : Bool), docDiffEmpty ed td = true →
      updateAssumeRolePolicy rn td (some ed) ex = ([], []))
  ∧ (∀ (x : Doc) (xs ys : List Doc), x ∈ xs →
      (xs.countP fun t => docDiffEmpty x t) ≠
        (ys.countP fun t => docDiffEmpty x t) →
      docDiffEmpty (Doc.seq xs) (Doc.seq ys) = false) := by
  refine ⟨docDiffEmpty_refl, fun _ _ h => docDiffEmpty_of_perm h,
    fun v _ _ h => docDiffEmpty_policyDoc_perm v h, ?_,
    fun _ _ _ hx hc => docDiffEmpty_reports_repetition hx hc⟩
  intro rn td ed ex h
  simp [updateAssumeRolePolicy, h]

/-- Two concrete statement documents used for the drift witness. -/
def stmtA : Doc := Doc.map [("Action", Doc.str "s3:GetObject")]

/-- Second concrete statement document used for the drift witness. -/
def stmtB : Doc := Doc.map [("Action", Doc.str "s3:PutObject")]

/-- Witness for C4 at concrete documents: identical documents and permuted
statement lists produce an empty diff and no handler output, while a
duplicated element missing on the other side is reported. -/
theorem drift_detection_witness :
    docDiffEmpty stmtA stmtA = true
  ∧ docDiffEmpty (Doc.seq [stmtA, stmtB]) (Doc.seq [stmtB, stmtA]) = true
  ∧ docDiffEmpty (policyDoc "2012-10-17" [stmtA, stmtB])
      (policyDoc "2012-10-17" [stmtB, stmtA]) = true
  ∧ updateAssumeRolePolicy "role" stmtA (some stmtA) true = ([], [])
  ∧ docDiffEmpty (Doc.seq [stmtA, stmtA]) (Doc.seq []) = false := by
  obtain ⟨h1, h2, h3, h4, h5⟩ := drift_detection_order_insensitive_idempotent
  refine ⟨h1 stmtA, h2 _ _ (List.Perm.swap stmtB stmtA []),
    h3 "2012-10-17" _ _ (List.Perm.swap stmtB stmtA []),
    h4 "role" stmtA stmtA true (docDiffEmpty_refl stmtA),
    h5 stmtA [stmtA, stmtA] [] (by simp) ?_⟩
  simp [List.countP_cons, docDiffEmpty_refl]

/-- C5: merging a new (discovered) model into an existing model preserves
operator-owned fields absent from the new value: for a group element the
existing `expires_at` survives when the new value leaves it unset (while the
discovery-observable name follows the new value); and in a keyed collection,
elements present in both lists carry the existing element's operator-owned
sub-fields forward via the element-wise merge, while elements only present in
the new list are kept as they are. -/
theorem merge_model_preserves_operator_fields :
    (∀ g e : UserGroup, g.expires_at = none →
      (mergeUserGroup g e).expires_at = e.expires_at)
  ∧ (∀ g e : UserGroup, (mergeUserGroup g e).group_name = g.group_name)
  ∧ (∀ (nl el : List UserGroup) (g e : UserGroup), g ∈ nl →
      findGroupByName el g.group_name = some e →
      mergeUserGroup g e ∈ mergeGroupLists nl el)
  ∧ (∀ (nl el : List UserGroup) (g : UserGroup), g ∈ nl →
      findGroupByName el g.group_name = none →
      g ∈ mergeGroupLists nl el) := by
  refine ⟨?_, ?_, ?_, ?_⟩
  · intro g e hg
    simp [mergeUserGroup, hg]
  · intro g e
    rfl
  · intro nl el g e hmem hfind
    rw [mergeGroupLists, List.mem_insertionSort]
    have heq : (fun g : UserGroup =>
        match findGroupByName el g.group_name with
        | some e => mergeUserGroup g e
        | none => g) g = mergeUserGroup g e := by
      show (match findGroupByName el g.group_name with
        | some e => mergeUserGroup g e
        | none => g) = mergeUserGroup g e
      rw [hfind]
    rw [← heq]
    exact List.mem_map_of_mem _ hmem
  · intro nl el g hmem hfind
    rw [mergeGroupLists, List.mem_insertionSort]
    have heq : (fun g : UserGroup =>
        match findGroupByName el g.group_name with
        | some e => mergeUserGroup g e
        | none => g) g = g := by
      show (match findGroupByName el g.group_name with
        | some e => mergeUserGroup g e
        | none => g) = g
      rw [hfind]
    rw [← heq]
    exact List.mem_map_of_mem _ hmem

/-- The new "bar" group element of the merge test (no expiry set). -/
def barGroupNew : UserGroup := { group_name := "bar" }

/-- The existing "bar" group element of the merge test (operator expiry). -/
def barGroupExisting : UserGroup :=
  { group_name := "bar", expires_at := some "tomorrow" }

/-- The "baz" group element only present in the new list. -/
def bazGroup : UserGroup := { group_name := "baz" }

/-- Witness for C5 on the data of `test_merge_group` /
`test_merge_user_properties`. -/
theorem merge_model_preserves_operator_fields_witness :
    (mergeUserGroup barGroupNew barGroupExisting).expires_at =
      barGroupExisting.expires_at
  ∧ (mergeUserGroup barGroupNew barGroupExisting).group_name =
      barGroupNew.group_name
  ∧ mergeUserGroup barGroupNew barGroupExisting ∈
      mergeGroupLists [bazGroup, barGroupNew] [barGroupExisting]
  ∧ bazGroup ∈ mergeGroupLists [bazGroup, barGroupNew] [barGroupExisting] := by
  obtain ⟨h1, h2, h3, h4⟩ := merge_model_preserves_operator_fields
  exact ⟨h1 barGroupNew barGroupExisting rfl, h2 barGroupNew barGroupExisting,
    h3 [bazGroup, barGroupNew] [barGroupExisting] barGroupNew barGroupExisting
      (by simp) rfl,
    h4 [bazGroup, barGroupNew] [barGroupExisting] bazGroup (by simp) rfl⟩

/-- C6: validated collections are deterministically sorted by their natural
key: access keys with ids ["ABC","123"] come out with "123" first, scoped
credential entries listed as account_b then account_a come out as account_a
then account_b, and re-validating (re-sorting) already-sorted data leaves it
unchanged. -/
theorem deterministic_key_sort :
    sortAccessKeys
        [{ id := "ABC", enabled := true, last_used := some "Never" },
         { id := "123", enabled := true, last_used := some "Never" }] =
      [{ id := "123", enabled := true, last_used := some "Never" },
       { id := "ABC", enabled := true, last_used := some "Never" }]
  ∧ sortCredentials
        [{ included_accounts := ["account_b"] },
         { included_accounts := ["account_a"] }] =
      [{ included_accounts := ["account_a"] },
       { included_accounts := ["account_b"] }]
  ∧ (∀ l : List AccessKeyD, sortAccessKeys (sortAccessKeys l) = sortAccessKeys l)
  ∧ (∀ l : List CredentialD,
      sortCredentials (sortCredentials l) = sortCredentials l) := by
  refine ⟨?_, ?_, ?_, ?_⟩
  · have h : ¬ accessKeyLe
        { id := "ABC", enabled := true, last_used := some "Never" }
        { id := "123", enabled := true, last_used := some "Never" } := by
      show ¬ (("ABC" : String) ≤ "123")
      simp
      decide
    simp [sortAccessKeys, List.insertionSort, List.orderedInsert, h]
  · have h : ¬ credentialLe { included_accounts := ["account_b"] }
        { included_accounts := ["account_a"] } := by
      show ¬ (String.intercalate "_" ["account_b"] ≤
        String.intercalate "_" ["account_a"])
      rw [show String.intercalate "_" ["account_b"] = "account_b" from rfl,
        show String.intercalate "_" ["account_a"] = "account_a" from rfl]
      simp
      decide
    simp [sortCredentials, List.insertionSort, List.orderedInsert, h]
  · intro l
    exact (List.sorted_insertionSort accessKeyLe l).insertionSort_eq
  · intro l
    exact (List.sorted_insertionSort credentialLe l).insertionSort_eq

/-- C7: constructing user properties with more than 50 tags fails validation
(no provider call is modelled or needed: the check is a pure function of the
template), while exactly 50 tags succeed. -/
theorem user_properties_tag_count_validation :
    (∀ (nm : String) (tags : List TagKV), tags.length > 50 →
      mkUserProperties nm tags = Except.error "too many tags")
  ∧ (∀ (nm : String) (tags : List TagKV), tags.length = 50 →
      mkUserProperties nm tags =
        Except.ok { user_name := nm, tags := tags }) := by
  constructor
  · intro nm tags h
    simp [mkUserProperties, maxTagCount, h]
  · intro nm tags h
    simp [mkUserProperties, maxTagCount, h]

/-- Witness for C7 on the data of `test_user_properties_tags_too_many_tags`
and `test_user_properties_tags_max_tags` (51 and 50 copies of one tag). -/
theorem user_properties_tag_count_validation_witness :
    (List.replicate 51 ({ key := "apple", value := "red" } : TagKV)).length > 50
  ∧ mkUserProperties "foo"
      (List.replicate 51 ({ key := "apple", value := "red" } : TagKV)) =
      Except.error "too many tags"
  ∧ (List.replicate 50 ({ key := "apple", value := "red" } : TagKV)).length = 50
  ∧ mkUserProperties "foo"
      (List.replicate 50 ({ key := "apple", value := "red" } : TagKV)) =
      Except.ok { user_name := "foo",
                  tags := List.replicate 50
                    ({ key := "apple", value := "red" } : TagKV) } := by
  obtain ⟨h1, h2⟩ := user_properties_tag_count_validation
  exact ⟨by simp, h1 "foo" _ (by simp), by simp, h2 "foo" _ (by simp)⟩
